import Mathlib

/-!
Shallow embedding of the space_bio_engine repository's core, for checking its
natural-language specification.

Part I embeds the frontend code that is present in the repository
(frontend/src/pages/SearchPage.tsx, the QA page, api.js): paper-id
normalization, link construction, snippet rendering, highlighting, and the
synchronous guard logic of the form handlers.

Part II models the retrieval-and-summarization backend, whose code is not in
the repository snapshot; those definitions are modelled from the spec and say
so in their doc comments.
-/

namespace SpaceBio

/-- A chunk's descriptive metadata as the frontend receives it
(interface `SearchMeta` in SearchPage.tsx). The TS field `section` is a Lean
keyword, so it is called `sectionName` here; `section?` and `chunk_id?` are
optional in TS, hence `Option`. -/
structure SearchMeta where
  paper_id : String
  title : String
  sectionName : Option String
  chunk_id : Option Nat
deriving Repr, DecidableEq

/-- A search result as the frontend receives it (interface `SearchResult` in
SearchPage.tsx). The TS `score: number` only flows through unchanged here, so
it is modelled as a rational. `snippet: string | null` becomes an `Option`. -/
structure SearchResult where
  score : ℚ
  meta : SearchMeta
  snippet : Option String
deriving Repr, DecidableEq

/-- One step of the JavaScript regex `/PMC\d+/i`: try to match the pattern at
the head of the character list. On success, return the matched characters in
their original case, with the digit run taken greedily as `\d+` does. -/
def pmcAt : List Char → Option (List Char)
  | p :: m :: c :: rest =>
    if p.toLower = 'p' ∧ m.toLower = 'm' ∧ c.toLower = 'c' then
      let ds := rest.takeWhile Char.isDigit
      if ds = [] then none else some (p :: m :: c :: ds)
    else none
  | _ => none

/-- `paperId.match(/PMC\d+/i)`: JavaScript returns the leftmost match, so scan
left to right for the first position where the pattern matches. -/
def findPMC : List Char → Option (List Char)
  | [] => none
  | c :: rest =>
    match pmcAt (c :: rest) with
    | some m => some m
    | none => findPMC rest

/-- The first `/PMC\d+/i` match in `s`, as a string, if any. -/
def matchPMC (s : String) : Option String :=
  (findPMC s.data).map (fun l => String.mk l)

/-- The id normalization in `openPaper` (SearchPage.tsx lines 106-108):
the first `/PMC\d+/i` match when there is one, the original id otherwise. -/
def cleanPaperId (paperId : String) : String :=
  match matchPMC paperId with
  | some m => m
  | none => paperId

/-- `getPaperLink` in SearchPage.tsx (lines 38-45). `none` models a missing
(`undefined`) argument; the empty string is falsy in JavaScript, so both take
the `!paper_id` early return to `"#"`. -/
def getPaperLink (paper_id : Option String) : String :=
  match paper_id with
  | none => "#"
  | some s =>
    if s = "" then "#"
    else
      match matchPMC s with
      | some m => "https://www.ncbi.nlm.nih.gov/pmc/articles/" ++ m ++ "/"
      | none => "#"

/-- JavaScript `String.prototype.trim`: drop leading and trailing whitespace.
Written over the character list so that it evaluates by kernel reduction. -/
def jsTrim (s : String) : String :=
  String.mk (((s.data.dropWhile Char.isWhitespace).reverse.dropWhile Char.isWhitespace).reverse)

/-- The fallback label built by `renderSnippet` when no usable snippet exists:
the title, then the section in parentheses when the `section` field is truthy
(a present, non-empty string). `r.meta?.title ?? "Untitled"` cannot produce
"Untitled" for data respecting the TS interface, where `meta` and `title` are
required, so the embedding reads the title directly. -/
def snippetFallback (r : SearchResult) : String :=
  r.meta.title ++
    (match r.meta.sectionName with
     | some sec => if sec = "" then "" else " (" ++ sec ++ ")"
     | none => "")

/-- `renderSnippet` in SearchPage.tsx (lines 146-154): a snippet that is
non-empty after trimming is used (truncated to its first 400 characters plus
"..." when longer than 400); otherwise the composed fallback label. -/
def renderSnippet (r : SearchResult) : String :=
  match r.snippet with
  | some snip =>
    if 0 < (jsTrim snip).length then
      if (jsTrim snip).length > 400 then String.mk ((jsTrim snip).data.take 400) ++ "..."
      else jsTrim snip
    else snippetFallback r
  | none => snippetFallback r

/-- Case-insensitive literal match of a lowercase token against the head of a
character list; on success, return the matched original-case characters and
the rest. This models one alternative of the case-insensitive regex built in
`highlightText` (token characters are regex-escaped in the source, so each
alternative matches its token literally). -/
def ciStrip : List Char → List Char → Option (List Char × List Char)
  | [], cs => some ([], cs)
  | _ :: _, [] => none
  | t :: ts, c :: cs =>
    if c.toLower = t then
      match ciStrip ts cs with
      | some (m, rest) => some (c :: m, rest)
      | none => none
    else none

/-- Try the regex alternatives (query tokens) in order at the current
position, as `(tok1|tok2|...)` does. -/
def tryTokens (toks : List (List Char)) (cs : List Char) : Option (List Char × List Char) :=
  match toks with
  | [] => none
  | t :: ts =>
    match ciStrip t cs with
    | some r => some r
    | none => tryTokens ts cs

/-- The global, case-insensitive replace `text.replace(re, "<mark>$1</mark>")`:
scan left to right; at each position the first matching alternative is wrapped
in mark tags and the scan resumes after it. Fuel bounds the recursion; every
token is non-empty (it is a maximal non-whitespace run), so each match
consumes at least one character and `text.length` fuel suffices. -/
def applyMarks (toks : List (List Char)) : Nat → List Char → List Char
  | 0, cs => cs
  | _ + 1, [] => []
  | fuel + 1, c :: cs =>
    match tryTokens toks (c :: cs) with
    | some (m, rest) => ("<mark>".data ++ m ++ "</mark>".data) ++ applyMarks toks fuel rest
    | none => c :: applyMarks toks fuel cs

/-- The maximal runs of non-whitespace characters; `cur` accumulates the run
in progress, reversed. -/
def wsRuns (cur : List Char) : List Char → List (List Char)
  | [] => if cur = [] then [] else [cur.reverse]
  | c :: cs =>
    if c.isWhitespace then
      if cur = [] then wsRuns [] cs else cur.reverse :: wsRuns [] cs
    else wsRuns (c :: cur) cs

/-- `query.trim().toLowerCase().split(/\s+/)`: the maximal runs of
non-whitespace characters, lowercased (`split(/\s+/)` yields no empty pieces
on a trimmed non-empty string). -/
def queryTokens (query : String) : List (List Char) :=
  (wsRuns [] (jsTrim query).data).map (fun t => t.map Char.toLower)

/-- `Array.from(new Set(tokens))`: deduplicate, keeping the first occurrence
of each token, preserving order. -/
def dedupKeepFirst (seen : List (List Char)) : List (List Char) → List (List Char)
  | [] => []
  | t :: ts =>
    if t ∈ seen then dedupKeepFirst seen ts
    else t :: dedupKeepFirst (t :: seen) ts

/-- `highlightText` in SearchPage.tsx (lines 27-35): falsy (empty) `text` or
`query` is returned unchanged; an empty token list is returned unchanged;
otherwise every occurrence of a query token is wrapped in `<mark>` tags. -/
def highlightText (text query : String) : String :=
  if text = "" ∨ query = "" then text
  else
    let toks := dedupKeepFirst [] (queryTokens query)
    if toks = [] then text
    else String.mk (applyMarks toks text.length text.data)

/-- The component state touched by `handleSearch` in SearchPage.tsx. -/
structure SearchPageState where
  query : String
  results : List SearchResult
  loading : Bool
  error : Option String
  totalCount : Option Nat
  page : Nat
deriving Repr, DecidableEq

/-- The GET request `handleSearch` issues: `/search?q=...&k=50`. -/
structure SearchRequest where
  q : String
  k : Nat
deriving Repr, DecidableEq

/-- The synchronous part of `handleSearch` (SearchPage.tsx lines 71-83) up to
the fetch: `if (!query.trim()) return;` precedes every state update, so an
empty trimmed query changes nothing and issues no request. -/
def handleSearch (st : SearchPageState) : SearchPageState × Option SearchRequest :=
  if jsTrim st.query = "" then (st, none)
  else ({ st with loading := true, error := none, page := 1, totalCount := none },
        some { q := st.query, k := 50 })

/-- An evidence card of the QA page (interface `Evidence`). -/
structure Evidence where
  paper_title : String
  sectionName : Option String
  snippet : String
  link : Option String
deriving Repr, DecidableEq

/-- The QA verdict values. -/
inductive Verdict
  | Agree
  | Mixed
  | Insufficient
deriving Repr, DecidableEq

/-- The QA response (interface `QAResponse`). -/
structure QAResponse where
  answer : String
  verdict : Verdict
  confidence : Option ℚ
  evidence : List Evidence
deriving Repr, DecidableEq

/-- The component state touched by `handleSubmit` in the QA page. -/
structure QAPageState where
  question : String
  response : Option QAResponse
  loading : Bool
  error : Option String
deriving Repr, DecidableEq

/-- The GET request `handleSubmit` issues: `/qa?q=...&k=10`. -/
structure QARequest where
  q : String
  k : Nat
deriving Repr, DecidableEq

/-- The synchronous part of the QA page's `handleSubmit` (lines 25-31 of the
unnamed QA page source) up to the fetch: `if (!question.trim()) return;`
precedes every state update. -/
def handleSubmit (st : QAPageState) : QAPageState × Option QARequest :=
  if jsTrim st.question = "" then (st, none)
  else ({ st with loading := true, error := none, response := none },
        some { q := st.question, k := 10 })

/-- `Response.ok` of the Fetch API: HTTP status in the 2xx range. -/
def respOk (status : Nat) : Bool := 200 ≤ status && status < 300

/-- The JSON body of the summary endpoint as the client is able to observe it:
the flat `summary` field it actually reads, plus the structured fields the
spec says the response carries, all optional since the body is untyped JSON. -/
structure SummaryResp where
  status : Nat
  summary : Option String
  intro : Option String
  key_points : Option (List String)
  outro : Option String
  plain_text : Option String
deriving Repr, DecidableEq

/-- What the client-side consumer ends up holding after the summary fetch. -/
inductive SummaryOutcome
  | gotSummary : Option String → SummaryOutcome
  | errored : String → SummaryOutcome
deriving Repr, DecidableEq

/-- SearchPage.tsx lines 124-137: the client-side consumption of the summary
response. A non-2xx status records an error message; otherwise
`setPaperSummary(j.summary || null)` stores the flat `summary` field, `null`
when it is absent or empty (JavaScript falsiness). -/
def consumePaperSummary (r : SummaryResp) : SummaryOutcome :=
  if respOk r.status then
    SummaryOutcome.gotSummary
      (match r.summary with
       | some s => if s = "" then none else some s
       | none => none)
  else
    SummaryOutcome.errored
      (if r.status = 404 then "Summary not found"
       else "Summary API error: " ++ toString r.status)

/-- Modelled from the spec: the backend's SearchEngine, MetadataStore,
SummarizationPipeline and SummaryCache are not in the repository snapshot
(only the frontend is), so sections 3 and 4 of the spec are embedded here.
A chunk's structural metadata held by the MetadataStore (section 3). The
spec's field `section` is a Lean keyword, so it is `sectionName` here. -/
structure Chunk where
  chunk_id : Nat
  paper_id : String
  sectionName : String
  text : String
deriving Repr, DecidableEq

/-- Modelled from the spec: one VectorIndex hit, a chunk id with its raw
distance (section 6). Distances are rationals standing in for the index's
floats; only their order and the monotone transform matter here. -/
structure IdxHit where
  chunk_id : Nat
  distance : ℚ
deriving Repr, DecidableEq

/-- Modelled from the spec: a SearchEngine result (section 3 SearchResult) -
score, the chunk's descriptive fields, and a snippet that is null when no
text is extractable. -/
structure EngineResult where
  score : ℚ
  chunk : Chunk
  snippet : Option String
deriving Repr, DecidableEq

/-- Modelled from the spec: the monotonically decreasing distance-to-score
transform suggested in section 4.1, score = 1 / (1 + distance). -/
def scoreOf (d : ℚ) : ℚ := 1 / (1 + d)

/-- Modelled from the spec (section 4.1): resolve each hit through the
MetadataStore, skipping - not failing on - ids with no resolvable metadata;
the snippet is the chunk's raw text, null when that text is empty. -/
def resolveHits (meta : Nat → Option Chunk) : List IdxHit → List EngineResult
  | [] => []
  | h :: hs =>
    match meta h.chunk_id with
    | some c =>
      { score := scoreOf h.distance, chunk := c,
        snippet := if c.text = "" then none else some c.text } :: resolveHits meta hs
    | none => resolveHits meta hs

/-- Modelled from the spec: the ranking order of section 4.1 - score
descending, ties broken by ascending chunk id for determinism. -/
def rankLE (a b : EngineResult) : Prop :=
  b.score < a.score ∨ (a.score = b.score ∧ a.chunk.chunk_id ≤ b.chunk.chunk_id)

instance : DecidableRel rankLE := fun a b => by
  unfold rankLE
  infer_instance

instance : IsTotal EngineResult rankLE where
  total a b := by
    unfold rankLE
    rcases lt_trichotomy a.score b.score with h | h | h
    · exact Or.inr (Or.inl h)
    · rcases Nat.le_total a.chunk.chunk_id b.chunk.chunk_id with h' | h'
      · exact Or.inl (Or.inr ⟨h, h'⟩)
      · exact Or.inr (Or.inr ⟨h.symm, h'⟩)
    · exact Or.inl (Or.inl h)

instance : IsTrans EngineResult rankLE where
  trans a b c hab hbc := by
    unfold rankLE at *
    rcases hab with h1 | ⟨e1, l1⟩
    · rcases hbc with h2 | ⟨e2, _⟩
      · exact Or.inl (h2.trans h1)
      · exact Or.inl (e2 ▸ h1)
    · rcases hbc with h2 | ⟨e2, l2⟩
      · exact Or.inl (e1 ▸ h2)
      · exact Or.inr ⟨e1.trans e2, l1.trans l2⟩

/-- Modelled from the spec (section 4.1 deduplication policy): in
per-document mode keep only the first - hence highest-ranked - result per
paper id, preserving order; `seen` accumulates the paper ids already kept. -/
def dedupByPaper (seen : List String) : List EngineResult → List EngineResult
  | [] => []
  | r :: rs =>
    if r.chunk.paper_id ∈ seen then dedupByPaper seen rs
    else r :: dedupByPaper (r.chunk.paper_id :: seen) rs

/-- Modelled from the spec (section 4.1): the search algorithm after the
Embedder and VectorIndex have run - resolve metadata for the hits the index
returned for `k`, convert distances to scores, sort by the ranking order,
and deduplicate per document when that mode is requested. -/
def engineSearch (meta : Nat → Option Chunk) (hits : List IdxHit) (perDoc : Bool) :
    List EngineResult :=
  let rs := List.insertionSort rankLE (resolveHits meta hits)
  if perDoc then dedupByPaper [] rs else rs

/-- Modelled from the spec: a full Document (section 3); `sections` is a
mapping from section name to full text, keys insertion-irrelevant, modelled
as an association list. -/
structure Document where
  paper_id : String
  title : String
  link : String
  sections : List (String × String)
  illustrations : List String
deriving Repr, DecidableEq

/-- Modelled from the spec: a structured Summary (section 3). -/
structure Summary where
  paper_id : String
  intro : String
  key_points : List String
  outro : String
  plain_text : String
deriving Repr, DecidableEq

/-- Modelled from the spec (section 3 invariant): a Summary is valid only if
all its string fields are non-empty and `key_points` has exactly 4 entries. -/
def validSummary (s : Summary) : Bool :=
  s.paper_id ≠ "" && s.intro ≠ "" && s.outro ≠ "" && s.plain_text ≠ "" &&
    s.key_points.length = 4

/-- Modelled from the spec (section 7): the error kinds reachable in the
summarization path. -/
inductive SumErr
  | NotFound
  | SourceUnavailable
  | SummarizationFailed
deriving Repr, DecidableEq

/-- Modelled from the spec (section 4.4): the JSON-like values the cache's
durable key-value layer stores. -/
inductive JVal
  | jstr : String → JVal
  | jarr : List JVal → JVal
  | jobj : List (String × JVal) → JVal

/-- Modelled from the spec (section 4.4): the cache entry content, the
validated Summary serialized losslessly as a JSON object. -/
def serialize (s : Summary) : JVal :=
  JVal.jobj
    [("paper_id", JVal.jstr s.paper_id),
     ("intro", JVal.jstr s.intro),
     ("key_points", JVal.jarr (s.key_points.map JVal.jstr)),
     ("outro", JVal.jstr s.outro),
     ("plain_text", JVal.jstr s.plain_text)]

/-- First binding of a key in a JSON object's field list. -/
def jlookup (k : String) : List (String × JVal) → Option JVal
  | [] => none
  | (k', v) :: rest => if k' = k then some v else jlookup k rest

/-- A JSON value as a string, when it is one. -/
def asJStr : JVal → Option String
  | .jstr s => some s
  | _ => none

/-- A JSON array's elements as strings, when all of them are strings. -/
def asJStrList : List JVal → Option (List String)
  | [] => some []
  | .jstr s :: rest => (asJStrList rest).map (fun l => s :: l)
  | _ => none

/-- Modelled from the spec (section 4.4): deserialization of a cache entry;
anything that is not a well-formed, valid Summary object is rejected, since a
corrupt entry is treated as a cache miss. -/
def deserialize (j : JVal) : Option Summary :=
  match j with
  | .jobj fields =>
    match jlookup "paper_id" fields, jlookup "intro" fields, jlookup "key_points" fields,
        jlookup "outro" fields, jlookup "plain_text" fields with
    | some jp, some ji, some (.jarr kps), some jo, some jt =>
      match asJStr jp, asJStr ji, asJStrList kps, asJStr jo, asJStr jt with
      | some p, some i, some ks, some o, some t =>
        let s : Summary := ⟨p, i, ks, o, t⟩
        if validSummary s then some s else none
      | _, _, _, _, _ => none
    | _, _, _, _, _ => none
  | _ => none

/-- Modelled from the spec (section 4.3): what one `getSummary` request did -
its outcome, the cache writes it performed, and how many GenerateCalls it
made. -/
structure PipelineRun where
  outcome : Except SumErr Summary
  writes : List (String × Summary)
  calls : Nat

/-- Modelled from the spec (section 4.3): the bounded retry budget, one
initial GenerateCall plus 2 corrective retries. -/
def maxAttempts : Nat := 3

/-- Modelled from the spec (section 4.3): the generate/validate/retry loop.
The untrusted backend is a function from the attempt number to the candidate
Summary its raw output parses or extracts to, `none` when even bounded-effort
extraction fails; Validate accepts exactly `validSummary`; the first valid
candidate is persisted and returned; an exhausted budget is
SummarizationFailed, never fabricated content. -/
def runAttempts (backend : Nat → Option Summary) (pid : String) : Nat → Nat → PipelineRun
  | _, 0 => ⟨Except.error SumErr.SummarizationFailed, [], 0⟩
  | i, rem + 1 =>
    match backend i with
    | some s =>
      if validSummary s then ⟨Except.ok s, [(pid, s)], 1⟩
      else
        let r := runAttempts backend pid (i + 1) rem
        ⟨r.outcome, r.writes, r.calls + 1⟩
    | none =>
      let r := runAttempts backend pid (i + 1) rem
      ⟨r.outcome, r.writes, r.calls + 1⟩

/-- Modelled from the spec (sections 4.2 and 4.3): `getSummary` as the
per-request state machine - CacheCheck on the normalized id; on a miss,
PromptBuild fails with SourceUnavailable when no Document or no sections are
resolvable, before any GenerateCall; otherwise the bounded retry loop runs
with CacheWrite on the first valid result. -/
def getSummary (cache : String → Option Summary) (docs : String → Option Document)
    (backend : Nat → Option Summary) (pid : String) : PipelineRun :=
  match cache (cleanPaperId pid) with
  | some s => ⟨Except.ok s, [], 0⟩
  | none =>
    match docs (cleanPaperId pid) with
    | none => ⟨Except.error SumErr.SourceUnavailable, [], 0⟩
    | some d =>
      if d.sections = [] then ⟨Except.error SumErr.SourceUnavailable, [], 0⟩
      else runAttempts backend (cleanPaperId pid) 0 maxAttempts

/-- The shape of a `/PMC\d+/i` match: the letters P, M, C in either case,
followed by one or more digits. -/
def IsPMCShape (m : List Char) : Prop :=
  ∃ p mc c ds, m = p :: mc :: c :: ds ∧ p.toLower = 'p' ∧ mc.toLower = 'm' ∧
    c.toLower = 'c' ∧ ds ≠ [] ∧ ∀ d ∈ ds, d.isDigit

/-- Some substring of `s` has PMC shape. -/
def HasPMCSub (s : String) : Prop :=
  ∃ pre m post, s.data = pre ++ m ++ post ∧ IsPMCShape m

end SpaceBio


namespace SpaceBio

/-- C9: for every pair of strings, if `text` is empty or `query` is empty then
`highlightText text query` returns `text` unchanged. -/
theorem highlightText_empty_identity (text query : String)
    (h : text = "" ∨ query = "") : highlightText text query = text := by
  unfold highlightText
  rw [if_pos h]

theorem highlightText_empty_identity_witness :
    (("" : String) = "" ∨ ("bio" : String) = "") ∧ highlightText "" "bio" = "" ∧
    (("cells" : String) = "" ∨ ("" : String) = "") ∧ highlightText "cells" "" = "cells" :=
  ⟨Or.inl rfl, highlightText_empty_identity "" "bio" (Or.inl rfl),
   Or.inr rfl, highlightText_empty_identity "cells" "" (Or.inr rfl)⟩

/-- C10: for every search result whose trimmed snippet is non-empty,
`renderSnippet` returns the trimmed snippet itself when it has at most 400
characters, and exactly its first 400 characters followed by "..." otherwise,
so the returned snippet never exceeds 403 characters. -/
theorem renderSnippet_truncation (r : SearchResult) (s : String)
    (hs : r.snippet = some s) (hne : jsTrim s ≠ "") :
    ((jsTrim s).length ≤ 400 → renderSnippet r = jsTrim s) ∧
    ((jsTrim s).length > 400 →
      renderSnippet r = String.mk ((jsTrim s).data.take 400) ++ "...") ∧
    (renderSnippet r).length ≤ 403 := by
  have hpos : 0 < (jsTrim s).length := by
    rcases Nat.eq_zero_or_pos (jsTrim s).length with h0 | hpos
    · exact absurd (String.ext (List.length_eq_zero.mp h0)) hne
    · exact hpos
  have hr : renderSnippet r =
      if (jsTrim s).length > 400 then String.mk ((jsTrim s).data.take 400) ++ "..."
      else jsTrim s := by
    unfold renderSnippet
    rw [hs]
    simp [hpos]
  have hdata : (jsTrim s).data.length = (jsTrim s).length := rfl
  by_cases h4 : (jsTrim s).length > 400
  · refine ⟨fun hle => absurd h4 (by omega), fun _ => by rw [hr, if_pos h4], ?_⟩
    rw [hr, if_pos h4, String.length_append]
    have htake : (String.mk ((jsTrim s).data.take 400)).length = 400 := by
      show ((jsTrim s).data.take 400).length = 400
      rw [List.length_take]
      omega
    have hdots : ("..." : String).length = 3 := rfl
    omega
  · refine ⟨fun _ => by rw [hr, if_neg h4], fun hgt => absurd hgt h4, ?_⟩
    rw [hr, if_neg h4]
    omega

theorem renderSnippet_truncation_witness :
    ({ score := 1, meta := ⟨"p", "T", some "Results", some 3⟩,
       snippet := some " hi " } : SearchResult).snippet = some " hi " ∧
    jsTrim " hi " ≠ "" ∧
    (jsTrim " hi ").length ≤ 400 ∧
    renderSnippet { score := 1, meta := ⟨"p", "T", some "Results", some 3⟩,
                    snippet := some " hi " } = jsTrim " hi " :=
  ⟨rfl, by decide, by decide,
   (renderSnippet_truncation _ " hi " rfl (by decide)).1 (by decide)⟩

/-- C4: submitting the search form or the QA form with a query that is empty
after trimming performs no request and leaves the component state unchanged;
a request is issued exactly when the trimmed query is non-empty. -/
theorem empty_query_no_fetch :
    (∀ st : SearchPageState, jsTrim st.query = "" → handleSearch st = (st, none)) ∧
    (∀ st : SearchPageState, jsTrim st.query ≠ "" →
      (handleSearch st).2 = some { q := st.query, k := 50 }) ∧
    (∀ st : QAPageState, jsTrim st.question = "" → handleSubmit st = (st, none)) ∧
    (∀ st : QAPageState, jsTrim st.question ≠ "" →
      (handleSubmit st).2 = some { q := st.question, k := 10 }) := by
  refine ⟨fun st h => ?_, fun st h => ?_, fun st h => ?_, fun st h => ?_⟩ <;>
    simp [handleSearch, handleSubmit, h]

theorem empty_query_no_fetch_witness :
    jsTrim "   " = "" ∧
    handleSearch ⟨"   ", [], false, none, none, 1⟩ =
      (⟨"   ", [], false, none, none, 1⟩, none) ∧
    handleSubmit ⟨"   ", none, false, none⟩ = (⟨"   ", none, false, none⟩, none) :=
  ⟨by decide,
   empty_query_no_fetch.1 ⟨"   ", [], false, none, none, 1⟩ (by decide),
   empty_query_no_fetch.2.2.1 ⟨"   ", none, false, none⟩ (by decide)⟩

/-- C1 counterexample: a 200 response that carries exactly the structured
fields intro, key_points (4 entries), outro and plain_text - the shape the
claim says the client receives - is consumed as a missing summary, because
the client reads only the flat `summary` field. -/
theorem consumePaperSummary_claim_cex :
    consumePaperSummary
        { status := 200, summary := none, intro := some "Intro.",
          key_points := some ["k1", "k2", "k3", "k4"], outro := some "Outro.",
          plain_text := some "Plain." } =
      SummaryOutcome.gotSummary none := by decide

/-- C1 amended: the client-side consumer of the summary response reads only
the flat `summary` field - on a 2xx status the outcome is unchanged when the
structured fields are removed, and it is `gotSummary v` with `v` either
`none` or the non-empty `summary` string; a non-2xx status yields an error
kind. -/
theorem consumePaperSummary_reads_flat_summary (r : SummaryResp) :
    (respOk r.status = true →
      consumePaperSummary r =
        consumePaperSummary
          { r with intro := none, key_points := none, outro := none, plain_text := none } ∧
      ∃ v, consumePaperSummary r = SummaryOutcome.gotSummary v ∧
        (v = none ∨ ∃ s, v = some s ∧ s ≠ "" ∧ r.summary = some s)) ∧
    (respOk r.status = false →
      ∃ msg, consumePaperSummary r = SummaryOutcome.errored msg) := by
  constructor
  · intro hok
    constructor
    · unfold consumePaperSummary
      simp [hok]
    · cases hsum : r.summary with
      | none =>
        exact ⟨none, by unfold consumePaperSummary; simp [hok, hsum], Or.inl rfl⟩
      | some s =>
        by_cases hse : s = ""
        · exact ⟨none, by unfold consumePaperSummary; simp [hok, hsum, hse], Or.inl rfl⟩
        · exact ⟨some s, by unfold consumePaperSummary; simp [hok, hsum, hse],
            Or.inr ⟨s, rfl, hse, rfl⟩⟩
  · intro hbad
    exact ⟨if r.status = 404 then "Summary not found"
            else "Summary API error: " ++ toString r.status,
           by unfold consumePaperSummary; simp [hbad]⟩

theorem consumePaperSummary_reads_flat_summary_witness :
    respOk 200 = true ∧
    (consumePaperSummary
        { status := 200, summary := some "All good.", intro := some "Intro.",
          key_points := some ["k1", "k2", "k3", "k4"], outro := some "Outro.",
          plain_text := some "Plain." } =
      consumePaperSummary
        { status := 200, summary := some "All good.", intro := none,
          key_points := none, outro := none, plain_text := none } ∧
     ∃ v, consumePaperSummary
        { status := 200, summary := some "All good.", intro := some "Intro.",
          key_points := some ["k1", "k2", "k3", "k4"], outro := some "Outro.",
          plain_text := some "Plain." } = SummaryOutcome.gotSummary v ∧
        (v = none ∨ ∃ s, v = some s ∧ s ≠ "" ∧
          ({ status := 200, summary := some "All good.", intro := some "Intro.",
             key_points := some ["k1", "k2", "k3", "k4"], outro := some "Outro.",
             plain_text := some "Plain." } : SummaryResp).summary = some s)) :=
  ⟨by decide,
   (consumePaperSummary_reads_flat_summary
     { status := 200, summary := some "All good.", intro := some "Intro.",
       key_points := some ["k1", "k2", "k3", "k4"], outro := some "Outro.",
       plain_text := some "Plain." }).1 (by decide)⟩

end SpaceBio

namespace SpaceBio

/-- A non-empty trimmed string has positive length. -/
theorem jsTrim_length_pos (s : String) (h : jsTrim s ≠ "") : 0 < (jsTrim s).length := by
  rcases Nat.eq_zero_or_pos (jsTrim s).length with h0 | hpos
  · exact absurd (String.ext (List.length_eq_zero.mp h0)) h
  · exact hpos

set_option maxRecDepth 40000 in
/-- C2 counterexample: a snippet longer than 400 characters is not used
verbatim (it is truncated), and when the snippet is absent and the `section`
field is present but empty the fallback is just the title, with no
parenthesized section. -/
theorem renderSnippet_claim_cex :
    renderSnippet ⟨1, ⟨"p1", "T", some "Sec", some 1⟩,
        some (String.mk (List.replicate 401 'a'))⟩ ≠
      String.mk (List.replicate 401 'a') ∧
    renderSnippet ⟨1, ⟨"p1", "T", some "", some 1⟩, none⟩ = "T" ∧
    ("T" : String) ≠ "T ()" := by decide

/-- C2 amended: with no snippet, or a snippet that is empty after trimming,
the rendered snippet is the title followed by the section name in parentheses
when a non-empty section is present, and just the title otherwise; with a
snippet non-empty after trimming, the trimmed snippet is used, truncated to
its first 400 characters plus "..." when longer than 400. -/
theorem renderSnippet_fallback (r : SearchResult) :
    ((r.snippet = none ∨ ∃ s, r.snippet = some s ∧ jsTrim s = "") →
      ((∃ sec, r.meta.sectionName = some sec ∧ sec ≠ "" ∧
          renderSnippet r = r.meta.title ++ (" (" ++ sec ++ ")")) ∨
       ((r.meta.sectionName = none ∨ r.meta.sectionName = some "") ∧
          renderSnippet r = r.meta.title))) ∧
    (∀ s, r.snippet = some s → jsTrim s ≠ "" →
      renderSnippet r =
        if (jsTrim s).length > 400 then String.mk ((jsTrim s).data.take 400) ++ "..."
        else jsTrim s) := by
  constructor
  · intro hempty
    have hfb : renderSnippet r = snippetFallback r := by
      rcases hempty with hn | ⟨s, hs, htrim⟩
      · unfold renderSnippet
        rw [hn]
      · unfold renderSnippet
        rw [hs]
        have : (jsTrim s).length = 0 := by rw [htrim]; rfl
        simp [this]
    rcases hsec : r.meta.sectionName with _ | sec
    · exact Or.inr ⟨Or.inl rfl, by rw [hfb]; unfold snippetFallback; rw [hsec]; simp⟩
    · by_cases hse : sec = ""
      · subst hse
        exact Or.inr ⟨Or.inr rfl, by rw [hfb]; unfold snippetFallback; rw [hsec]; simp⟩
      · exact Or.inl ⟨sec, rfl, hse, by rw [hfb]; unfold snippetFallback; rw [hsec]; simp [hse]⟩
  · intro s hs hne
    have hpos := jsTrim_length_pos s hne
    unfold renderSnippet
    rw [hs]
    simp [hpos]

theorem renderSnippet_fallback_witness :
    ((⟨1, ⟨"p", "T", some "Results", some 3⟩, none⟩ : SearchResult).snippet = none ∨
      ∃ s, (⟨1, ⟨"p", "T", some "Results", some 3⟩, none⟩ : SearchResult).snippet = some s ∧
        jsTrim s = "") ∧
    ((∃ sec, (⟨1, ⟨"p", "T", some "Results", some 3⟩, none⟩ : SearchResult).meta.sectionName =
          some sec ∧ sec ≠ "" ∧
        renderSnippet ⟨1, ⟨"p", "T", some "Results", some 3⟩, none⟩ =
          (⟨1, ⟨"p", "T", some "Results", some 3⟩, none⟩ : SearchResult).meta.title ++
            (" (" ++ sec ++ ")")) ∨
     (((⟨1, ⟨"p", "T", some "Results", some 3⟩, none⟩ : SearchResult).meta.sectionName = none ∨
        (⟨1, ⟨"p", "T", some "Results", some 3⟩, none⟩ : SearchResult).meta.sectionName =
          some "") ∧
        renderSnippet ⟨1, ⟨"p", "T", some "Results", some 3⟩, none⟩ =
          (⟨1, ⟨"p", "T", some "Results", some 3⟩, none⟩ : SearchResult).meta.title)) :=
  ⟨Or.inl rfl,
   (renderSnippet_fallback ⟨1, ⟨"p", "T", some "Results", some 3⟩, none⟩).1 (Or.inl rfl)⟩

/-- A successful `pmcAt` match is an initial segment of its input and has PMC
shape. -/
theorem pmcAt_shape : ∀ {cs m : List Char}, pmcAt cs = some m →
    ∃ post, cs = m ++ post ∧ IsPMCShape m := by
  intro cs m h
  match cs with
  | [] => simp [pmcAt] at h
  | [p] => simp [pmcAt] at h
  | [p, mc] => simp [pmcAt] at h
  | p :: mc :: c :: rest =>
    by_cases hl : p.toLower = 'p' ∧ mc.toLower = 'm' ∧ c.toLower = 'c'
    · by_cases hd : rest.takeWhile Char.isDigit = []
      · simp [pmcAt, hl, hd] at h
      · have hm : m = p :: mc :: c :: rest.takeWhile Char.isDigit := by
          simp [pmcAt, hl, hd] at h
          exact h.symm
        refine ⟨rest.dropWhile Char.isDigit, ?_, ?_⟩
        · rw [hm]
          simp [List.takeWhile_append_dropWhile]
        · exact ⟨p, mc, c, _, hm, hl.1, hl.2.1, hl.2.2, hd,
            fun d hdm => List.mem_takeWhile_imp hdm⟩
    · simp [pmcAt, hl] at h

/-- `pmcAt` succeeds wherever a PMC-shaped segment starts. -/
theorem pmcAt_of_shape {m post : List Char} (hm : IsPMCShape m) :
    pmcAt (m ++ post) ≠ none := by
  obtain ⟨p, mc, c, ds, rfl, hp, hmc, hc, hne, hds⟩ := hm
  cases ds with
  | nil => exact absurd rfl hne
  | cons d ds' =>
    have hd : d.isDigit := hds d (by simp)
    simp [pmcAt, hp, hmc, hc, List.takeWhile_cons, hd]

/-- A successful scan returns a PMC-shaped substring occurring at the
earliest possible position. -/
theorem findPMC_some : ∀ {cs m : List Char}, findPMC cs = some m →
    ∃ pre post, cs = pre ++ m ++ post ∧ IsPMCShape m ∧
      ∀ pre' m' post', cs = pre' ++ m' ++ post' → IsPMCShape m' →
        pre.length ≤ pre'.length := by
  intro cs
  induction cs with
  | nil => intro m h; simp [findPMC] at h
  | cons c rest ih =>
    intro m h
    unfold findPMC at h
    cases hat : pmcAt (c :: rest) with
    | some m0 =>
      rw [hat] at h
      injection h with h
      subst h
      obtain ⟨post, heq, hshape⟩ := pmcAt_shape hat
      exact ⟨[], post, by simpa using heq, hshape, fun pre' m' post' _ _ => Nat.zero_le _⟩
    | none =>
      rw [hat] at h
      obtain ⟨pre, post, heq, hshape, hmin⟩ := ih h
      refine ⟨c :: pre, post, by simp [heq], hshape, ?_⟩
      intro pre' m' post' hsplit hshape'
      cases pre' with
      | nil =>
        exfalso
        simp only [List.nil_append] at hsplit
        exact pmcAt_of_shape hshape' (hsplit ▸ hat)
      | cons c' pre'' =>
        have htail : rest = pre'' ++ m' ++ post' := by
          have := congrArg List.tail hsplit
          simpa using this
        have := hmin pre'' m' post' htail hshape'
        simpa using Nat.succ_le_succ this

/-- A failed scan means no PMC-shaped substring exists anywhere. -/
theorem findPMC_none : ∀ {cs : List Char}, findPMC cs = none →
    ∀ pre m post, cs = pre ++ m ++ post → ¬ IsPMCShape m := by
  intro cs
  induction cs with
  | nil =>
    intro _ pre m post heq hshape
    obtain ⟨p, mc, c, ds, rfl, _⟩ := hshape
    simp at heq
  | cons c rest ih =>
    intro h pre m post heq hshape
    unfold findPMC at h
    cases hat : pmcAt (c :: rest) with
    | some m0 =>
      rw [hat] at h
      exact absurd h (by simp)
    | none =>
      rw [hat] at h
      cases pre with
      | nil =>
        simp only [List.nil_append] at heq
        exact pmcAt_of_shape hshape (heq ▸ hat)
      | cons c' pre' =>
        have htail : rest = pre' ++ m ++ post := by
          have := congrArg List.tail heq
          simpa using this
        exact ih h pre' m post htail hshape

/-- C3: paper and summary lookups are keyed by the first case-insensitive
`PMC\d+` match in the id (at the earliest position where the pattern occurs),
falling back to the exact original string when no such substring exists; the
external link is built from the matched PMC id, and is "#" when the id is
absent or has no match. -/
theorem paper_id_normalization :
    (∀ s m, matchPMC s = some m →
      cleanPaperId s = m ∧
      (∃ pre post, s.data = pre ++ m.data ++ post ∧ IsPMCShape m.data ∧
        ∀ pre' m' post', s.data = pre' ++ m' ++ post' → IsPMCShape m' →
          pre.length ≤ pre'.length) ∧
      getPaperLink (some s) = "https://www.ncbi.nlm.nih.gov/pmc/articles/" ++ m ++ "/") ∧
    (∀ s, matchPMC s = none →
      cleanPaperId s = s ∧ ¬ HasPMCSub s ∧ getPaperLink (some s) = "#") ∧
    getPaperLink none = "#" := by
  refine ⟨fun s m hm => ?_, fun s hm => ?_, rfl⟩
  · obtain ⟨l, hfind, hml⟩ := Option.map_eq_some'.mp hm
    have hsne : s ≠ "" := by
      intro hse
      subst hse
      simp [findPMC] at hfind
    have hdata : m.data = l := by rw [← hml]
    refine ⟨?_, ?_, ?_⟩
    · unfold cleanPaperId
      rw [hm]
    · rw [hdata]
      exact findPMC_some hfind
    · simp only [getPaperLink]
      rw [if_neg hsne, hm]
  · refine ⟨?_, ?_, ?_⟩
    · unfold cleanPaperId
      rw [hm]
    · intro ⟨pre, mm, post, hsplit, hshape⟩
      have hfind : findPMC s.data = none := by
        cases hf : findPMC s.data with
        | none => rfl
        | some l => rw [matchPMC, hf] at hm; exact absurd hm (by simp)
      exact findPMC_none hfind pre mm post hsplit hshape
    · by_cases hse : s = ""
      · simp only [getPaperLink]
        rw [if_pos hse]
      · simp only [getPaperLink]
        rw [if_neg hse, hm]

theorem paper_id_normalization_witness :
    matchPMC "see pmc123 online" = some "pmc123" ∧
    cleanPaperId "see pmc123 online" = "pmc123" ∧
    getPaperLink (some "see pmc123 online") =
      "https://www.ncbi.nlm.nih.gov/pmc/articles/" ++ "pmc123" ++ "/" ∧
    matchPMC "no id here" = none ∧
    cleanPaperId "no id here" = "no id here" ∧
    getPaperLink (some "no id here") = "#" ∧
    getPaperLink none = "#" :=
  ⟨by decide,
   (paper_id_normalization.1 "see pmc123 online" "pmc123" (by decide)).1,
   (paper_id_normalization.1 "see pmc123 online" "pmc123" (by decide)).2.2,
   by decide,
   (paper_id_normalization.2.1 "no id here" (by decide)).1,
   (paper_id_normalization.2.1 "no id here" (by decide)).2.2,
   paper_id_normalization.2.2⟩

end SpaceBio

namespace SpaceBio

/-- Deserializing an all-string JSON array gives back the underlying list. -/
theorem asJStrList_map (l : List String) : asJStrList (l.map JVal.jstr) = some l := by
  induction l with
  | nil => rfl
  | cons s rest ih => simp [asJStrList, ih]

/-- C7: for every valid Summary, deserializing its serialization yields it
back unchanged - the cache's serialization is a lossless round-trip. -/
theorem serialize_roundtrip (s : Summary) (h : validSummary s = true) :
    deserialize (serialize s) = some s := by
  unfold serialize deserialize
  simp [jlookup, asJStr, asJStrList_map, h]

theorem serialize_roundtrip_witness :
    validSummary ⟨"PMC100", "Intro.", ["k1", "k2", "k3", "k4"], "Outro.", "Plain."⟩ = true ∧
    deserialize (serialize ⟨"PMC100", "Intro.", ["k1", "k2", "k3", "k4"], "Outro.", "Plain."⟩) =
      some ⟨"PMC100", "Intro.", ["k1", "k2", "k3", "k4"], "Outro.", "Plain."⟩ :=
  ⟨by decide, serialize_roundtrip _ (by decide)⟩

/-- The retry loop only ever returns or writes Summaries accepted by
`validSummary`, makes at most one GenerateCall per remaining attempt, and
fails only with SummarizationFailed. -/
theorem runAttempts_valid (backend : Nat → Option Summary) (pid : String) :
    ∀ rem i,
      (∀ s, (runAttempts backend pid i rem).outcome = Except.ok s → validSummary s = true) ∧
      (∀ p s, (p, s) ∈ (runAttempts backend pid i rem).writes → validSummary s = true) ∧
      (runAttempts backend pid i rem).calls ≤ rem ∧
      (∀ e, (runAttempts backend pid i rem).outcome = Except.error e →
        e = SumErr.SummarizationFailed) := by
  intro rem
  induction rem with
  | zero =>
    intro i
    refine ⟨fun s h => ?_, fun p s h => ?_, ?_, fun e h => ?_⟩
    · exact absurd h (by simp [runAttempts])
    · simp [runAttempts] at h
    · simp [runAttempts]
    · simp [runAttempts] at h
      exact h.symm
  | succ rem ih =>
    intro i
    rcases hb : backend i with _ | cand
    · have hrw : runAttempts backend pid i (rem + 1) =
          ⟨(runAttempts backend pid (i + 1) rem).outcome,
           (runAttempts backend pid (i + 1) rem).writes,
           (runAttempts backend pid (i + 1) rem).calls + 1⟩ := by
        simp only [runAttempts, hb]
      obtain ⟨h1, h2, h3, h4⟩ := ih (i + 1)
      rw [hrw]
      exact ⟨h1, h2, Nat.succ_le_succ h3, h4⟩
    · by_cases hv : validSummary cand = true
      · have hrw : runAttempts backend pid i (rem + 1) = ⟨Except.ok cand, [(pid, cand)], 1⟩ := by
          simp only [runAttempts, hb]
          show (if validSummary cand = true
                then (⟨Except.ok cand, [(pid, cand)], 1⟩ : PipelineRun)
                else ⟨(runAttempts backend pid (i + 1) rem).outcome,
                      (runAttempts backend pid (i + 1) rem).writes,
                      (runAttempts backend pid (i + 1) rem).calls + 1⟩) =
              (⟨Except.ok cand, [(pid, cand)], 1⟩ : PipelineRun)
          rw [if_pos hv]
        rw [hrw]
        refine ⟨fun s h => ?_, fun p s h => ?_, by simp, fun e h => by simp at h⟩
        · injection h with h
          exact h ▸ hv
        · simp at h
          exact h.2 ▸ hv
      · have hrw : runAttempts backend pid i (rem + 1) =
            ⟨(runAttempts backend pid (i + 1) rem).outcome,
             (runAttempts backend pid (i + 1) rem).writes,
             (runAttempts backend pid (i + 1) rem).calls + 1⟩ := by
          simp only [runAttempts, hb]
          show (if validSummary cand = true
                then (⟨Except.ok cand, [(pid, cand)], 1⟩ : PipelineRun)
                else ⟨(runAttempts backend pid (i + 1) rem).outcome,
                      (runAttempts backend pid (i + 1) rem).writes,
                      (runAttempts backend pid (i + 1) rem).calls + 1⟩) =
              ⟨(runAttempts backend pid (i + 1) rem).outcome,
               (runAttempts backend pid (i + 1) rem).writes,
               (runAttempts backend pid (i + 1) rem).calls + 1⟩
          rw [if_neg hv]
        obtain ⟨h1, h2, h3, h4⟩ := ih (i + 1)
        rw [hrw]
        exact ⟨h1, h2, Nat.succ_le_succ h3, h4⟩

/-- C6: assuming the cache invariant (only validated Summaries are stored), a
Summary rejected by `validSummary` - fewer than 4 key points or any empty
field - is never returned as a valid result and never persisted by
`getSummary`; the pipeline stays within its bounded retry budget and
otherwise fails with SourceUnavailable or SummarizationFailed. -/
theorem summary_valid_only (cache : String → Option Summary)
    (docs : String → Option Document) (backend : Nat → Option Summary) (pid : String)
    (hcache : ∀ p s, cache p = some s → validSummary s = true) :
    (∀ s, (getSummary cache docs backend pid).outcome = Except.ok s → validSummary s = true) ∧
    (∀ p s, (p, s) ∈ (getSummary cache docs backend pid).writes → validSummary s = true) ∧
    (getSummary cache docs backend pid).calls ≤ maxAttempts ∧
    (∀ e, (getSummary cache docs backend pid).outcome = Except.error e →
      e = SumErr.SourceUnavailable ∨ e = SumErr.SummarizationFailed) := by
  cases hc : cache (cleanPaperId pid) with
  | some s0 =>
    have hrw : getSummary cache docs backend pid = ⟨Except.ok s0, [], 0⟩ := by
      unfold getSummary
      rw [hc]
    rw [hrw]
    refine ⟨fun s h => ?_, fun p s h => ?_, by simp [maxAttempts], fun e h => by simp at h⟩
    · injection h with h
      exact h ▸ hcache _ _ hc
    · simp at h
  | none =>
    cases hd : docs (cleanPaperId pid) with
    | none =>
      have hrw : getSummary cache docs backend pid =
          ⟨Except.error SumErr.SourceUnavailable, [], 0⟩ := by
        unfold getSummary
        rw [hc, hd]
      rw [hrw]
      refine ⟨fun s h => by simp at h, fun p s h => by simp at h, by simp [maxAttempts],
        fun e h => ?_⟩
      injection h with h
      exact Or.inl h.symm
    | some d =>
      by_cases hsec : d.sections = []
      · have hrw : getSummary cache docs backend pid =
            ⟨Except.error SumErr.SourceUnavailable, [], 0⟩ := by
          simp only [getSummary, hc, hd]
          rw [if_pos hsec]
        rw [hrw]
        refine ⟨fun s h => by simp at h, fun p s h => by simp at h, by simp [maxAttempts],
          fun e h => ?_⟩
        injection h with h
        exact Or.inl h.symm
      · have hrw : getSummary cache docs backend pid =
            runAttempts backend (cleanPaperId pid) 0 maxAttempts := by
          simp only [getSummary, hc, hd]
          rw [if_neg hsec]
        obtain ⟨h1, h2, h3, h4⟩ := runAttempts_valid backend (cleanPaperId pid) maxAttempts 0
        rw [hrw]
        exact ⟨h1, h2, h3, fun e h => Or.inr (h4 e h)⟩

theorem summary_valid_only_witness :
    (∀ p s, (fun _ : String => (none : Option Summary)) p = some s → validSummary s = true) ∧
    ((∀ s, (getSummary (fun _ => none)
        (fun _ => some ⟨"PMC9", "T", "L", [("Abstract", "text")], []⟩)
        (fun _ => some ⟨"PMC9", "i", ["only", "two"], "o", "p"⟩) "PMC9").outcome =
          Except.ok s → validSummary s = true) ∧
     (∀ p s, (p, s) ∈ (getSummary (fun _ => none)
        (fun _ => some ⟨"PMC9", "T", "L", [("Abstract", "text")], []⟩)
        (fun _ => some ⟨"PMC9", "i", ["only", "two"], "o", "p"⟩) "PMC9").writes →
          validSummary s = true) ∧
     (getSummary (fun _ => none)
        (fun _ => some ⟨"PMC9", "T", "L", [("Abstract", "text")], []⟩)
        (fun _ => some ⟨"PMC9", "i", ["only", "two"], "o", "p"⟩) "PMC9").calls ≤ maxAttempts ∧
     (∀ e, (getSummary (fun _ => none)
        (fun _ => some ⟨"PMC9", "T", "L", [("Abstract", "text")], []⟩)
        (fun _ => some ⟨"PMC9", "i", ["only", "two"], "o", "p"⟩) "PMC9").outcome =
          Except.error e →
        e = SumErr.SourceUnavailable ∨ e = SumErr.SummarizationFailed)) :=
  ⟨fun _ _ h => Option.noConfusion h,
   summary_valid_only (fun _ => none)
     (fun _ => some ⟨"PMC9", "T", "L", [("Abstract", "text")], []⟩)
     (fun _ => some ⟨"PMC9", "i", ["only", "two"], "o", "p"⟩) "PMC9"
     (fun _ _ h => Option.noConfusion h)⟩

/-- C8: on a cache miss for a paper id with no resolvable Document or no
sections, `getSummary` fails with SourceUnavailable, makes no GenerateCall,
and writes nothing. -/
theorem getSummary_source_unavailable (cache : String → Option Summary)
    (docs : String → Option Document) (backend : Nat → Option Summary) (pid : String)
    (hmiss : cache (cleanPaperId pid) = none)
    (hdoc : docs (cleanPaperId pid) = none ∨
      ∃ d, docs (cleanPaperId pid) = some d ∧ d.sections = []) :
    (getSummary cache docs backend pid).outcome = Except.error SumErr.SourceUnavailable ∧
    (getSummary cache docs backend pid).calls = 0 ∧
    (getSummary cache docs backend pid).writes = [] := by
  rcases hdoc with hd | ⟨d, hd, hsec⟩
  · have hrw : getSummary cache docs backend pid =
        ⟨Except.error SumErr.SourceUnavailable, [], 0⟩ := by
      unfold getSummary
      rw [hmiss, hd]
    rw [hrw]
    exact ⟨rfl, rfl, rfl⟩
  · have hrw : getSummary cache docs backend pid =
        ⟨Except.error SumErr.SourceUnavailable, [], 0⟩ := by
      simp only [getSummary, hmiss, hd]
      rw [if_pos hsec]
    rw [hrw]
    exact ⟨rfl, rfl, rfl⟩

theorem getSummary_source_unavailable_witness :
    (fun _ : String => (none : Option Summary)) (cleanPaperId "PMC_NONEXISTENT") = none ∧
    (getSummary (fun _ => none) (fun _ => none) (fun _ => none) "PMC_NONEXISTENT").outcome =
      Except.error SumErr.SourceUnavailable ∧
    (getSummary (fun _ => none) (fun _ => none) (fun _ => none) "PMC_NONEXISTENT").calls = 0 ∧
    (getSummary (fun _ => none) (fun _ => none) (fun _ => none) "PMC_NONEXISTENT").writes = [] :=
  ⟨rfl,
   getSummary_source_unavailable (fun _ => none) (fun _ => none) (fun _ => none)
     "PMC_NONEXISTENT" rfl (Or.inl rfl)⟩

end SpaceBio

namespace SpaceBio

/-- Resolving skips unresolvable ids, so it never lengthens the hit list. -/
theorem resolveHits_length (meta : Nat → Option Chunk) :
    ∀ hits : List IdxHit, (resolveHits meta hits).length ≤ hits.length := by
  intro hits
  induction hits with
  | nil => simp [resolveHits]
  | cons h hs ih =>
    cases hm : meta h.chunk_id with
    | some c =>
      have hrw : resolveHits meta (h :: hs) =
          ⟨scoreOf h.distance, c, if c.text = "" then none else some c.text⟩ ::
            resolveHits meta hs := by
        simp only [resolveHits, hm]
      rw [hrw]
      simpa using Nat.succ_le_succ ih
    | none =>
      have hrw : resolveHits meta (h :: hs) = resolveHits meta hs := by
        simp only [resolveHits, hm]
      rw [hrw]
      exact Nat.le_trans ih (Nat.le_succ _)

/-- When the store's metadata is keyed consistently, the chunk ids of the
resolved results form a sublist of the hit ids. -/
theorem resolveHits_ids_sublist (meta : Nat → Option Chunk)
    (hmeta : ∀ i c, meta i = some c → c.chunk_id = i) :
    ∀ hits : List IdxHit,
      List.Sublist ((resolveHits meta hits).map fun r => r.chunk.chunk_id)
        (hits.map IdxHit.chunk_id) := by
  intro hits
  induction hits with
  | nil => simp [resolveHits]
  | cons h hs ih =>
    cases hm : meta h.chunk_id with
    | some c =>
      have hrw : resolveHits meta (h :: hs) =
          ⟨scoreOf h.distance, c, if c.text = "" then none else some c.text⟩ ::
            resolveHits meta hs := by
        simp only [resolveHits, hm]
      rw [hrw]
      have hhead :
          (((⟨scoreOf h.distance, c, if c.text = "" then none else some c.text⟩ :
              EngineResult) :: resolveHits meta hs).map fun r => r.chunk.chunk_id) =
            c.chunk_id :: ((resolveHits meta hs).map fun r => r.chunk.chunk_id) := by
        simp
      rw [hhead, hmeta _ _ hm, List.map_cons]
      exact ih.cons₂ _
    | none =>
      have hrw : resolveHits meta (h :: hs) = resolveHits meta hs := by
        simp only [resolveHits, hm]
      rw [hrw, List.map_cons]
      exact ih.cons _

/-- Per-document deduplication keeps a sublist of its input. -/
theorem dedupByPaper_sublist : ∀ (seen : List String) (l : List EngineResult),
    List.Sublist (dedupByPaper seen l) l := by
  intro seen l
  induction l generalizing seen with
  | nil => simp [dedupByPaper]
  | cons r rs ih =>
    by_cases hmem : r.chunk.paper_id ∈ seen
    · have hrw : dedupByPaper seen (r :: rs) = dedupByPaper seen rs := by
        simp only [dedupByPaper]
        rw [if_pos hmem]
      rw [hrw]
      exact (ih seen).cons _
    · have hrw : dedupByPaper seen (r :: rs) =
          r :: dedupByPaper (r.chunk.paper_id :: seen) rs := by
        simp only [dedupByPaper]
        rw [if_neg hmem]
      rw [hrw]
      exact (ih _).cons₂ _

/-- C5: when the index honors its contract (at most `k` hits, no duplicate
chunk ids) and the store's metadata is keyed consistently, the engine returns
at most `k` results, sorted by non-increasing score, with no duplicate chunk
id in either deduplication mode, and ties in score broken by strictly
ascending chunk id. -/
theorem engineSearch_ranked (meta : Nat → Option Chunk) (hits : List IdxHit)
    (k : Nat) (perDoc : Bool)
    (hk : hits.length ≤ k)
    (hids : (hits.map IdxHit.chunk_id).Nodup)
    (hmeta : ∀ i c, meta i = some c → c.chunk_id = i) :
    (engineSearch meta hits perDoc).length ≤ k ∧
    List.Pairwise (fun a b : EngineResult => b.score ≤ a.score)
      (engineSearch meta hits perDoc) ∧
    ((engineSearch meta hits perDoc).map fun r => r.chunk.chunk_id).Nodup ∧
    List.Pairwise (fun a b : EngineResult =>
        b.score < a.score ∨ (a.score = b.score ∧ a.chunk.chunk_id < b.chunk.chunk_id))
      (engineSearch meta hits perDoc) := by
  have hsub : List.Sublist (engineSearch meta hits perDoc)
      (List.insertionSort rankLE (resolveHits meta hits)) := by
    unfold engineSearch
    cases perDoc with
    | true => simpa using dedupByPaper_sublist [] _
    | false => simp
  have hsorted : List.Pairwise rankLE (List.insertionSort rankLE (resolveHits meta hits)) :=
    List.sorted_insertionSort rankLE (resolveHits meta hits)
  have hperm : List.Perm (List.insertionSort rankLE (resolveHits meta hits))
      (resolveHits meta hits) :=
    List.perm_insertionSort rankLE (resolveHits meta hits)
  have hlen : (engineSearch meta hits perDoc).length ≤ k := by
    have h1 := hsub.length_le
    have h2 := hperm.length_eq
    have h3 := resolveHits_length meta hits
    omega
  have hnodup0 : ((resolveHits meta hits).map fun r => r.chunk.chunk_id).Nodup :=
    hids.sublist (resolveHits_ids_sublist meta hmeta hits)
  have hnodup1 :
      ((List.insertionSort rankLE (resolveHits meta hits)).map
        fun r => r.chunk.chunk_id).Nodup :=
    ((hperm.map fun r => r.chunk.chunk_id).nodup_iff).mpr hnodup0
  have hnodupE : ((engineSearch meta hits perDoc).map fun r => r.chunk.chunk_id).Nodup :=
    hnodup1.sublist (hsub.map _)
  have hpw : List.Pairwise rankLE (engineSearch meta hits perDoc) :=
    hsorted.sublist hsub
  have hne : List.Pairwise (fun a b : EngineResult => a.chunk.chunk_id ≠ b.chunk.chunk_id)
      (engineSearch meta hits perDoc) := List.pairwise_map.mp hnodupE
  refine ⟨hlen, ?_, hnodupE, ?_⟩
  · refine hpw.imp ?_
    intro a b hab
    rcases hab with h | ⟨heq, _⟩
    · exact le_of_lt h
    · exact le_of_eq heq.symm
  · refine (hpw.and hne).imp ?_
    intro a b hab
    rcases hab with ⟨h | ⟨heq, hle⟩, hne2⟩
    · exact Or.inl h
    · exact Or.inr ⟨heq, lt_of_le_of_ne hle hne2⟩

theorem engineSearch_ranked_witness :
    ([(⟨2, 2/5⟩ : IdxHit), ⟨1, 1/10⟩].length ≤ 5) ∧
    (([(⟨2, 2/5⟩ : IdxHit), ⟨1, 1/10⟩].map IdxHit.chunk_id).Nodup) ∧
    ((engineSearch
        (fun i => if i = 1 then some ⟨1, "PMC100", "Abstract", "text one"⟩
                  else if i = 2 then some ⟨2, "PMC200", "Results", "text two"⟩ else none)
        [⟨2, 2/5⟩, ⟨1, 1/10⟩] false).length ≤ 5 ∧
     List.Pairwise (fun a b : EngineResult => b.score ≤ a.score)
       (engineSearch
         (fun i => if i = 1 then some ⟨1, "PMC100", "Abstract", "text one"⟩
                   else if i = 2 then some ⟨2, "PMC200", "Results", "text two"⟩ else none)
         [⟨2, 2/5⟩, ⟨1, 1/10⟩] false) ∧
     ((engineSearch
         (fun i => if i = 1 then some ⟨1, "PMC100", "Abstract", "text one"⟩
                   else if i = 2 then some ⟨2, "PMC200", "Results", "text two"⟩ else none)
         [⟨2, 2/5⟩, ⟨1, 1/10⟩] false).map fun r => r.chunk.chunk_id).Nodup ∧
     List.Pairwise (fun a b : EngineResult =>
         b.score < a.score ∨ (a.score = b.score ∧ a.chunk.chunk_id < b.chunk.chunk_id))
       (engineSearch
         (fun i => if i = 1 then some ⟨1, "PMC100", "Abstract", "text one"⟩
                   else if i = 2 then some ⟨2, "PMC200", "Results", "text two"⟩ else none)
         [⟨2, 2/5⟩, ⟨1, 1/10⟩] false)) :=
  ⟨by decide, by decide,
   engineSearch_ranked
     (fun i => if i = 1 then some ⟨1, "PMC100", "Abstract", "text one"⟩
               else if i = 2 then some ⟨2, "PMC200", "Results", "text two"⟩ else none)
     [⟨2, 2/5⟩, ⟨1, 1/10⟩] 5 false (by decide) (by decide)
     (by
       intro i c h
       dsimp only at h
       split_ifs at h with h1 h2
       · injection h with h'
         subst h'
         simp [h1]
       · injection h with h'
         subst h'
         simp [h2])⟩

end SpaceBio
